import Mathlib

/-!
# Verification of the DNS differential fuzzer core

A shallow embedding, in Lean 4, of the parts of the
`dns-differential-fuzzing` repository that the checked properties are
about, together with proofs (or refutations) of those properties.

Covered source files:
* `src/fuzzer/src/zip_sorted.rs` — the sorted zip merge iterator;
* `src/fuzzer/src/prio_queue.rs` — the priority queue with decay;
* `src/fuzzer-protocol/src/counters.rs` — fixed-length coverage counters;
* `src/fuzzer/src/diff_matcher.rs` — the differential matcher, the
  difference fingerprint and the unordered pair;
* `src/dnsauth/src/authns/dynamic.rs` (with `authns/mod.rs`) — the
  scripted authoritative DNS server;
* `src/fuzzer/src/executor.rs` — the per-result oracle checks.

Modelling conventions: Rust `u32`/`usize` become `Nat` with explicit
saturation bounds where the code saturates; `f64` priorities become `ℚ`
(the queue only multiplies by the constant `DECAY_FACTOR = 0.91`, and the
properties below are about that multiplicative structure, not about
rounding); panics become `Option.none`; `HashMap`/`BTreeMap` become
association lists with `BTreeMap` lookup/update semantics; `BTreeSet`
becomes `Finset`.
-/

namespace DnsFuzz

/-! ## Zip-sort merge (`src/fuzzer/src/zip_sorted.rs`)

`zip_sorted` merges two key-sorted maps into a stream of
`(key, Option left, Option right)` triples.  The Rust implementation is a
hand-rolled iterator that holds back the larger of the two heads in a
one-element buffer `curr`; unfolding that state machine gives the
recursion below: on equal heads both are consumed, otherwise the smaller
head is emitted alone and the larger is kept for the next step. -/

def zipSorted {K A B : Type} [LinearOrder K] :
    List (K × A) → List (K × B) → List (K × Option A × Option B)
  | [], [] => []
  | [], (k, v) :: r => (k, none, some v) :: zipSorted [] r
  | (k, v) :: l, [] => (k, some v, none) :: zipSorted l []
  | (kl, vl) :: l, (kr, vr) :: r =>
    match compare kl kr with
    | .eq => (kl, some vl, some vr) :: zipSorted l r
    | .lt => (kl, some vl, none) :: zipSorted l ((kr, vr) :: r)
    | .gt => (kr, none, some vr) :: zipSorted ((kl, vl) :: l) r
  termination_by l r => l.length + r.length

variable {K A B : Type} [LinearOrder K]

/-- Reconstruct the left input from the merged stream. -/
def leftProj (xs : List (K × Option A × Option B)) : List (K × A) :=
  xs.filterMap fun x => x.2.1.map (fun v => (x.1, v))

/-- Reconstruct the right input from the merged stream. -/
def rightProj (xs : List (K × Option A × Option B)) : List (K × B) :=
  xs.filterMap fun x => x.2.2.map (fun v => (x.1, v))

/-! ## Priority queue with decay (`src/fuzzer/src/prio_queue.rs`)

Priorities are `f64` in Rust, with a total order (`f64::total_cmp`); the
queue only ever multiplies them by the constant `DECAY_FACTOR = 0.91`, so
they are modelled as exact rationals.  The `BinaryHeap` is modelled as a
list of `(priority, value)` entries; `pop` extracts a maximal entry under
the derived lexicographic order of `PriorityQueueEntry`. -/

def DECAY_FACTOR : ℚ := 91 / 100

section PrioQueueModel

variable {T : Type} [LinearOrder T] {α : Type}

/-- Association-list lookup with `BTreeMap::get` semantics. -/
def alookup : List (T × α) → T → Option α
  | [], _ => none
  | (k, v) :: rest, x => if k = x then some v else alookup rest x

/-- Association-list insert with `BTreeMap::insert` semantics (replace the
value if the key is present, add the entry otherwise). -/
def ainsert : List (T × α) → T → α → List (T × α)
  | [], k, v => [(k, v)]
  | (k', v') :: rest, k, v =>
    if k' = k then (k, v) :: rest else (k', v') :: ainsert rest k v

/-- Strict comparison of two heap entries, the derived lexicographic
`Ord` of `PriorityQueueEntry { priority, value }`. -/
def entryLtb (a b : ℚ × T) : Bool :=
  if a.1 < b.1 then true else if b.1 < a.1 then false else decide (a.2 < b.2)

/-- `BinaryHeap::pop`: removes and returns a maximal entry. -/
def popMax : List (ℚ × T) → Option ((ℚ × T) × List (ℚ × T))
  | [] => none
  | e :: es =>
    match popMax es with
    | none => some (e, es)
    | some (m, rest) => if entryLtb e m then some (m, e :: rest) else some (e, es)

/-- `BTreeMap::remove`: the removed value together with the remaining map. -/
def lookupRemove : List (T × ℕ) → T → Option (ℕ × List (T × ℕ))
  | [], _ => none
  | (k, c) :: rest, v =>
    if k = v then some (c, rest)
    else (lookupRemove rest v).map fun p => (p.1, (k, c) :: p.2)

/-- The loop of `PriorityQueue::get_and_requeue_n`: while fewer than `n`
items have been served, pop the top entry; if it has a pending penalty,
apply `DECAY_FACTOR^penalty`, drop the penalty entry and push the entry
back; otherwise decay it once, serve its value and park the entry in
`buffer`.  On exit the buffer is pushed back into the queue.  Returns
`(served values, final queue, final penalties)`. -/
def gar (q : List (ℚ × T)) (pen : List (T × ℕ)) (res : List T)
    (buffer : List (ℚ × T)) (n : ℕ) : List T × List (ℚ × T) × List (T × ℕ) :=
  if hres : res.length < n then
    match hq : popMax q with
    | some (item, q') =>
      match hp : lookupRemove pen item.2 with
      | some (stored_penalty, pen') =>
        gar (q' ++ [(item.1 * DECAY_FACTOR ^ stored_penalty, item.2)]) pen' res buffer n
      | none =>
        gar q' pen (res ++ [item.2]) (buffer ++ [(item.1 * DECAY_FACTOR, item.2)]) n
    | none => (res, q ++ buffer, pen)
  else (res, q ++ buffer, pen)
  termination_by (n - res.length) + pen.length
  decreasing_by
  · have hlen : pen'.length + 1 = pen.length := by
      induction pen generalizing stored_penalty pen' with
      | nil => simp [lookupRemove] at hp
      | cons x xs ih =>
        rw [lookupRemove] at hp
        by_cases hx : x.1 = item.2
        · rw [if_pos hx] at hp
          cases hp
          simp
        · rw [if_neg hx] at hp
          rcases hxs : lookupRemove xs item.2 with _ | ⟨c, p⟩
          · simp [hxs] at hp
          · rw [hxs] at hp
            cases hp
            simpa using ih c p hxs
    omega
  · simp only [List.length_append, List.length_cons, List.length_nil]
    omega

/-- `PriorityQueue { queue, original_priorities, penalties }`. -/
structure PriorityQueue (T : Type) where
  queue : List (ℚ × T)
  original_priorities : List (T × ℚ)
  penalties : List (T × ℕ)

/-- `PriorityQueue::new`. -/
def PriorityQueue.new (T : Type) : PriorityQueue T := ⟨[], [], []⟩

/-- `PriorityQueue::push`. -/
def PriorityQueue.push (st : PriorityQueue T) (priority : ℚ) (value : T) :
    PriorityQueue T :=
  { st with
    queue := st.queue ++ [(priority, value)]
    original_priorities := ainsert st.original_priorities value priority }

/-- `PriorityQueue::get_and_requeue_n`. -/
def PriorityQueue.get_and_requeue_n (st : PriorityQueue T) (n : ℕ) :
    List T × PriorityQueue T :=
  let out := gar st.queue st.penalties [] [] n
  (out.1, { st with queue := out.2.1, penalties := out.2.2 })

/-- The `original_priorities` update of one `PriorityQueue::decay` step:
multiply the entry of `id`, when present, by `DECAY_FACTOR`. -/
def decayOrig : List (T × ℚ) → T → List (T × ℚ)
  | [], _ => []
  | (k, p) :: rest, id =>
    if k = id then (k, p * DECAY_FACTOR) :: rest else (k, p) :: decayOrig rest id

/-- The `penalties` update of one `PriorityQueue::decay` step:
`*penalties.entry(id).or_insert(0) += 1`. -/
def bumpPenalty : List (T × ℕ) → T → List (T × ℕ)
  | [], id => [(id, 1)]
  | (k, c) :: rest, id =>
    if k = id then (k, c + 1) :: rest else (k, c) :: bumpPenalty rest id

/-- `PriorityQueue::decay` over the members of the id set (a `BTreeSet`,
modelled as a duplicate-free list). -/
def PriorityQueue.decay (st : PriorityQueue T) (ids : List T) : PriorityQueue T :=
  ids.foldl
    (fun st id =>
      { st with
        original_priorities := decayOrig st.original_priorities id
        penalties := bumpPenalty st.penalties id })
    st

end PrioQueueModel

/-! ## Counters (`src/fuzzer-protocol/src/counters.rs`)

A `Counters` is a `Vec<u32>`.  Values are modelled as `ℕ` below `2^32`;
the panicking length assertions of `Add`, `discard_counters_by_pattern`
and `shrink_by_pattern` are modelled by an `Option` result.
`min_pairwise` and `max_pairwise` contain no assertion in the source:
they mutate `self` through `iter_mut().zip(other.iter())`, which silently
stops at the shorter of the two vectors and leaves the tail of `self`
unchanged. -/

/-- `Vec<u32>` payload of `Counters`. -/
def Counters := List ℕ

/-- `u32::MAX`, the saturation bound. -/
def U32_MAX : ℕ := 2 ^ 32 - 1

/-- `impl Add for Counters` (saturating element-wise addition after the
equal-length assertion; `none` models the panic). -/
def Counters.add (a rhs : Counters) : Option Counters :=
  if List.length a = List.length rhs then
    some (List.zipWith (fun l r => min (l + r) U32_MAX) a rhs)
  else none

/-- `Counters::discard_counters_by_pattern` (asserts equal length, then
zeroes every position where the pattern is non-zero). -/
def Counters.discard_counters_by_pattern (a pattern : Counters) : Option Counters :=
  if List.length a = List.length pattern then
    some (List.zipWith (fun c p => if p > 0 then 0 else c) a pattern)
  else none

/-- `Counters::shrink_by_pattern` (asserts equal length, then keeps the
positions where the pattern is non-zero). -/
def Counters.shrink_by_pattern (a pattern : Counters) : Option Counters :=
  if List.length a = List.length pattern then
    some (((List.zip a pattern).filter (fun cp => cp.2 > 0)).map Prod.fst)
  else none

/-- `Counters::min_pairwise`: no length assertion; the zip stops at the
shorter input and the remaining elements of `self` stay unchanged. -/
def Counters.min_pairwise (a other : Counters) : Counters :=
  List.zipWith min a other ++ List.drop (List.length other) a

/-- `Counters::max_pairwise`: same shape as `min_pairwise`. -/
def Counters.max_pairwise (a other : Counters) : Counters :=
  List.zipWith max a other ++ List.drop (List.length other) a

/-! ## DNS message model

Typed view of the `trust_dns_proto` message pieces that the scripted
AuthNS (`src/dnsauth/src/authns/dynamic.rs` and `authns/mod.rs`) and the
executor oracles (`src/fuzzer/src/executor.rs`) manipulate.  Record types
and classes are wire values (`ℕ`); names are label lists. -/

inductive MessageType
  | Query
  | Response
deriving DecidableEq, Repr

inductive OpCode
  | Query
  | Status
  | Notify
  | Update
deriving DecidableEq, Repr

inductive ResponseCode
  | NoError
  | FormErr
  | ServFail
  | NXDomain
  | NotImp
  | Refused
deriving DecidableEq, Repr

/-- The numeric wire value of a response code. -/
def ResponseCode.toNat : ResponseCode → ℕ
  | .NoError => 0
  | .FormErr => 1
  | .ServFail => 2
  | .NXDomain => 3
  | .NotImp => 4
  | .Refused => 5

/-- `ResponseCode::high()`: the upper bits carried in the EDNS extended
rcode.  Zero for every plain (non-extended) code. -/
def ResponseCode.high (rc : ResponseCode) : ℕ := rc.toNat / 16

structure Question where
  qname : List String
  qtype : ℕ
  qclass : ℕ
deriving DecidableEq, Repr

inductive RData
  | SOA (mname rname : List String) (serial refresh retry expire minimum : ℕ)
  | A (addr : ℕ)
  | Other (raw : String)
deriving DecidableEq, Repr

structure DnsRecord where
  name : List String
  ttl : ℕ
  rdata : RData
deriving DecidableEq, Repr

structure Edns where
  max_payload : ℕ
  nsid : Option String
  rcode_high : ℕ
deriving DecidableEq, Repr

structure DnsMsg where
  id : ℕ
  message_type : MessageType
  op_code : OpCode
  authoritative : Bool
  checking_disabled : Bool
  recursion_desired : Bool
  recursion_available : Bool
  truncated : Bool
  response_code : ResponseCode
  queries : List Question
  answers : List DnsRecord
  name_servers : List DnsRecord
  additionals : List DnsRecord
  edns : Option Edns
deriving DecidableEq, Repr

/-- `Message::new()` defaults. -/
def DnsMsg.new : DnsMsg :=
  { id := 0
    message_type := .Query
    op_code := .Query
    authoritative := false
    checking_disabled := false
    recursion_desired := false
    recursion_available := false
    truncated := false
    response_code := .NoError
    queries := []
    answers := []
    name_servers := []
    additionals := []
    edns := none }

/-- The fields of a `trust_dns_server` `MessageRequest` read by the
scripted AuthNS: the request id, its (single) query, and the header bits
and EDNS section mirrored into responses. -/
structure MessageRequest where
  id : ℕ
  query : Question
  checking_disabled : Bool
  recursion_desired : Bool
  edns : Option Edns
deriving DecidableEq, Repr

/-- `Name::trim_to(n)`: keep only the last `n` labels (the whole name when
it has at most `n`). -/
def trimTo (labels : List String) (n : ℕ) : List String :=
  List.drop (labels.length - n) labels

/-- `LowerQuery` equality: owner name compared lower-cased, type and class
exactly. -/
def questionMatches (a b : Question) : Bool :=
  a.qname.map String.toLower = b.qname.map String.toLower &&
    a.qtype = b.qtype && a.qclass = b.qclass

/-! ### Scripted AuthNS (`src/dnsauth/src/authns/dynamic.rs`) -/

/-- `create_empty_response_from_request` (`authns/mod.rs`). -/
def create_empty_response_from_request (request : MessageRequest) (nsid : String) :
    DnsMsg :=
  let edns := request.edns.map fun req_edns =>
    { max_payload := 1232
      nsid := if req_edns.nsid.isSome then some nsid else none
      rcode_high := 0 }
  { DnsMsg.new with
    edns := edns
    queries := [request.query]
    authoritative := true
    checking_disabled := request.checking_disabled
    id := request.id
    message_type := .Response
    op_code := .Query
    recursion_desired := request.recursion_desired }

/-- `create_error_response` (`authns/mod.rs`).  The extended-rcode branch
is dead for the plain codes modelled here (`high() = 0`). -/
def create_error_response (request : MessageRequest) (response_code : ResponseCode)
    (nsid : String) : DnsMsg :=
  let response := { create_empty_response_from_request request nsid with
    response_code := response_code }
  if response_code.high ≠ 0 then
    { response with
      edns := response.edns.map fun e => { e with rcode_high := response_code.high } }
  else response

/-- The shared state of `DynamicDnsAuthServerState` (sans locks). -/
structure DynamicAuthState where
  fuzzing_response : List DnsMsg
  query_list : List DnsMsg
  answer_index : List ℕ
deriving DecidableEq, Repr

/-- `usize::MAX`, the sentinel recorded when the NODATA default is
served. -/
def USIZE_MAX : ℕ := 2 ^ 64 - 1

/-- The `for (idx, resp) in fuzzing_response.iter().enumerate()` scan:
first entry one of whose queries matches the request question. -/
def scanResponses : List DnsMsg → Question → ℕ → Option (ℕ × DnsMsg)
  | [], _, _ => none
  | resp :: rest, q, idx =>
    if resp.queries.any fun rq => questionMatches rq q then some (idx, resp)
    else scanResponses rest q (idx + 1)

/-- `DynamicDnsAuthServer::create_response`.  The wire round trip
(`to_bytes` then `from_bytes`) of the request is external; its outcome is
the `reparsed` argument, `none` modelling the decode failure branch that
only logs a warning. -/
def create_response (st : DynamicAuthState) (request : MessageRequest)
    (reparsed : Option DnsMsg) : DnsMsg × DynamicAuthState :=
  let st :=
    match reparsed with
    | some msg => { st with query_list := st.query_list ++ [msg] }
    | none => st
  match scanResponses st.fuzzing_response request.query 0 with
  | some (idx, resp) =>
    ({ resp with id := request.id },
      { st with answer_index := st.answer_index ++ [idx] })
  | none =>
    let resp := create_error_response request .NoError "DNS Fuzzer"
    let soa : DnsRecord :=
      { name := trimTo request.query.qname 2
        ttl := 300
        rdata := .SOA ["private", "server"] ["testing", "test"]
          15337002 1800 900 604800 1800 }
    ({ resp with name_servers := resp.name_servers ++ [soa] },
      { st with answer_index := st.answer_index ++ [USIZE_MAX] })

/-- `DynamicDnsAuthServerHandle::get_query_list`: atomically swap both
lists with empty vectors and return the previous contents. -/
def get_query_list (st : DynamicAuthState) :
    (List DnsMsg × List ℕ) × DynamicAuthState :=
  ((st.query_list, st.answer_index), { st with query_list := [], answer_index := [] })

/-- Request of scenario S2: `foo.bar.0001.fuzz. IN AAAA`, id 42. -/
def exampleRequest : MessageRequest :=
  { id := 42
    query := { qname := ["foo", "bar", "0001", "fuzz"], qtype := 28, qclass := 1 }
    checking_disabled := false
    recursion_desired := true
    edns := none }

/-! ### Executor oracle checks (`src/fuzzer/src/executor.rs`, the
per-result block of `run_new_test_cases`)

The `FuzzResult`/`OracleResults` struct declarations live in
`dnsauth/src/definitions/fuzz_results.rs`, which is not part of the
sources; their fields are reconstructed from the accesses in
`executor.rs` and `bin/dnsauth.rs` and match the spec's data model. -/

structure OracleResults where
  crashed_resolver : Bool
  excessive_queries : Bool
  excessive_answer_records : Bool
  duplicate_records : Bool
  responds_to_response : Bool
deriving DecidableEq, Repr

/-- The view of the `fuzzee_response` `Message` used by the oracle block:
three header counts and three record sections. -/
structure FuzzeeResponse where
  answer_count : ℕ
  name_server_count : ℕ
  additional_count : ℕ
  answers : List DnsRecord
  name_servers : List DnsRecord
  additionals : List DnsRecord
deriving DecidableEq, Repr

structure FuzzCaseM where
  id : ℕ
  client_query : DnsMsg
deriving DecidableEq, Repr

structure FuzzResultM where
  id : ℕ
  fuzzee_response : Option FuzzeeResponse
  fuzzee_queries : List DnsMsg
  oracles : OracleResults
deriving DecidableEq, Repr

def EXCESSIVE_QUERIES_COUNT : ℕ := 15

def EXCESSIVE_ANSWER_RECORDS_COUNT : ℕ := 10

/-- `section.len() != BTreeSet::from_iter(section).len()`. -/
def hasDuplicates (l : List DnsRecord) : Bool :=
  decide (l.dedup.length ≠ l.length)

/-- The oracle checks applied to one `FuzzResult` inside
`run_new_test_cases`.  The `.expect("Each FuzzResult must have a matching
TestCase")` panic (reached only when a `fuzzee_response` is present) is
modelled by `none`. -/
def apply_oracles (test_cases : List FuzzCaseM) (fr : FuzzResultM) :
    Option FuzzResultM :=
  let after_resp : Option FuzzResultM :=
    match fr.fuzzee_response with
    | some resp =>
      let o := fr.oracles
      let o := if resp.answer_count + resp.name_server_count + resp.additional_count >
          EXCESSIVE_ANSWER_RECORDS_COUNT
        then { o with excessive_answer_records := true } else o
      let o := if hasDuplicates resp.answers || hasDuplicates resp.name_servers ||
          hasDuplicates resp.additionals
        then { o with duplicate_records := true } else o
      match test_cases.find? fun tc => tc.id == fr.id with
      | none => none
      | some tc =>
        let o := if tc.client_query.message_type = MessageType.Response
          then { o with responds_to_response := true } else o
        some { fr with oracles := o }
    | none => some fr
  after_resp.map fun fr =>
    if fr.fuzzee_queries.length > EXCESSIVE_QUERIES_COUNT
    then { fr with oracles := { fr.oracles with excessive_queries := true } } else fr

/-- A test case whose client query is a DNS response (QR=1). -/
def c5Case : FuzzCaseM :=
  { id := 0, client_query := { DnsMsg.new with message_type := .Response } }

/-- A successful result for that case that carries no `fuzzee_response`. -/
def c5Result : FuzzResultM :=
  { id := 0
    fuzzee_response := none
    fuzzee_queries := []
    oracles := ⟨false, false, false, false, false⟩ }

/-- A successful result for `c5Case` carrying an (empty) `fuzzee_response`. -/
def c5Resp : FuzzeeResponse := ⟨0, 0, 0, [], [], []⟩

def c5ResultWithResponse : FuzzResultM :=
  { id := 0
    fuzzee_response := some c5Resp
    fuzzee_queries := []
    oracles := ⟨false, false, false, false, false⟩ }

/-! ## Differential matcher (`src/fuzzer/src/diff_matcher.rs`)

`ValueMap` (a `HashMap<Atom, Value>`) is modelled as an association list
of dotted keys; indexing a missing key yields `Value.VMissing` exactly as
the `Index` impl does.  `diff_two_resolvers` is embedded with the rule set
`search_known_differences` as a function parameter, so the statements
below hold for the concrete rule set as an instance. -/

inductive Value
  | VString (s : String)
  | VInteger (i : ℤ)
  | VBoolean (b : Bool)
  | VMissing
deriving DecidableEq, Repr

/-- The closed catalogue of benign difference classes. -/
inductive DifferenceKind
  | ResolverName
  | DnsId
  | IncomparableCounters
  | MetaDiff
  | NonINRecursion
  | CookiesUnsupported
  | CookiesUncomparable
  | TodoCacheIgnoredForNow
  | ServFailOnWrongAuthnsAnswerType
  | ServFailOnWrongAuthnsAnswerClass
  | MaxTtlLimit
  | FormErrOnTruncatedQuery
  | ErrorClientNoRrInAnswer
  | ClientQueryWithoutRdBit
  | ExtendedErrorsUnsupported
  | NoEdnsSupport
  | MaradnsNoResponseServfail
  | TrailingRetransmissions
  | ErrorClientQueryIncomparableFuzzeeQueries
  | Bind9NotImpMissingQuerySection
  | MaradnsFakeSoaOnAAAA
  | UnboundProbesUsingARecord
  | PdnsCheckingDisabled
  | MaradnsQueryClassNotIn
  | PdnsEdnsClientBufsize
  | Bind9_11EdnsClientBufsize
  | Bind9_11EdnsServerBufsize
  | UnboundFormErrCopiesAdAndAa
  | RefusedCanBeServFail
  | QnameMinimalization
  | BindHsProhibited
  | MaradnsNoRecursionDesired
  | MaradnsEmbeddedZero
  | BindErrorsHaveHardcodedValues
  | PdnsRecursorsNonQueryNoResponse
  | ResolvedServFailOnNoData
  | Bind9_11ExtraNsRecord
  | Bind9ExtraNsRecord
deriving DecidableEq, Repr

/-- `ValueMap`: dotted keys to typed values. -/
def ValueMap : Type := List (String × Value)

/-- The `Index` impls: a missing key yields `Value::Missing`. -/
def ValueMap.index (m : ValueMap) (key : String) : Value :=
  (alookup m key).getD Value.VMissing

/-- `ValueMap::as_sorted`: the same data ordered by key.  (The source
orders by natural-sort `Natsorted`; any total key order gives the same
diff-key set, and the lexicographic one is used here.) -/
def ValueMap.as_sorted (m : ValueMap) : List (String × Value) :=
  m.mergeSort fun a b => a.1 ≤ b.1

/-- `KnownDiffs`: map from each differing key to the accumulated
`DifferenceKind`s explaining it. -/
def KnownDiffs : Type := List (String × List DifferenceKind)

/-- The keys of `known_diffs` holding at least one kind (the set
subtracted from `diff_keys` in `diff_two_resolvers`). -/
def knownDiffKeys (kd : KnownDiffs) : List String :=
  kd.filterMap fun p => if p.2.isEmpty then none else some p.1

/-- `KnownDiffs::get_total_set`: the set of all assigned kinds. -/
def KnownDiffs.get_total_set (kd : KnownDiffs) : Finset DifferenceKind :=
  ((kd.map Prod.snd).flatten).toFinset

/-- `UnorderedPair<T>`. -/
structure UnorderedPair (T : Type) where
  fst : T
  snd : T
deriving DecidableEq, Repr

/-- The custom `PartialEq` of `UnorderedPair`: equal componentwise in
either orientation. -/
def UnorderedPair.eqv {T : Type} (a b : UnorderedPair T) : Prop :=
  (a.fst = b.fst ∧ a.snd = b.snd) ∨ (a.fst = b.snd ∧ a.snd = b.fst)

/-- `UnorderedPair::as_ordered_tuple`: canonicalize by comparing the two
sides. -/
def UnorderedPair.as_ordered_tuple {T : Type} [LinearOrder T]
    (p : UnorderedPair T) : T × T :=
  match compare p.fst p.snd with
  | .gt => (p.snd, p.fst)
  | _ => (p.fst, p.snd)

/-- The derived lexicographic comparison of a tuple. -/
def tupleCompare {T : Type} [LinearOrder T] (a b : T × T) : Ordering :=
  match compare a.1 b.1 with
  | .eq => compare a.2 b.2
  | o => o

/-- The custom `Ord` of `UnorderedPair`: compare the canonicalized
tuples. -/
def UnorderedPair.cmp {T : Type} [LinearOrder T] (a b : UnorderedPair T) : Ordering :=
  tupleCompare a.as_ordered_tuple b.as_ordered_tuple

/-- The 13 response-header keys captured in `special_fields` (the DNS id
is excluded). -/
def SPECIAL_KEYS : List String :=
  [".fuzz_result.fuzzee_response.header.additional_count",
   ".fuzz_result.fuzzee_response.header.answer_count",
   ".fuzz_result.fuzzee_response.header.authentic_data",
   ".fuzz_result.fuzzee_response.header.authoritative",
   ".fuzz_result.fuzzee_response.header.checking_disabled",
   ".fuzz_result.fuzzee_response.header.message_type",
   ".fuzz_result.fuzzee_response.header.name_server_count",
   ".fuzz_result.fuzzee_response.header.op_code",
   ".fuzz_result.fuzzee_response.header.query_count",
   ".fuzz_result.fuzzee_response.header.recursion_available",
   ".fuzz_result.fuzzee_response.header.recursion_desired",
   ".fuzz_result.fuzzee_response.header.response_code",
   ".fuzz_result.fuzzee_response.header.truncated"]

/-- `k.starts_with(".fuzz_result.cache_state")`, compared
character-wise. -/
def isCacheStateKey (k : String) : Bool :=
  ".fuzz_result.cache_state".data.isPrefixOf k.data

/-- `DiffFingerprint`. -/
structure DiffFingerprint where
  key_diffs : Finset String
  special_fields : UnorderedPair (List Value)

/-- The derived `PartialEq` of `DiffFingerprint` (field equality, with the
unordered-pair equality on `special_fields`). -/
def DiffFingerprint.eqv (a b : DiffFingerprint) : Prop :=
  a.key_diffs = b.key_diffs ∧ UnorderedPair.eqv a.special_fields b.special_fields

/-- `DiffFingerprint::new`: index the 13 special keys on both sides and
drop every `.fuzz_result.cache_state` key from `key_diffs`. -/
def DiffFingerprint.new (key_diffs : Finset String)
    (first_keyvalue second_keyvalue : ValueMap) : DiffFingerprint :=
  { key_diffs :=
      key_diffs.filter fun k => isCacheStateKey k = false
    special_fields :=
      ⟨SPECIAL_KEYS.map (ValueMap.index first_keyvalue),
       SPECIAL_KEYS.map (ValueMap.index second_keyvalue)⟩ }

inductive DifferenceResult
  | NoDifference
  | KnownDifference (kinds : Finset DifferenceKind)
  | NewDifference (fingerprint : DiffFingerprint) (known_diffs : KnownDiffs)

/-- The raw diff of `diff_two_resolvers`: keys whose values differ in the
zip-sorted merge of the two maps. -/
def diffKeys (first_keyvalue second_keyvalue : ValueMap) : List String :=
  (zipSorted first_keyvalue.as_sorted second_keyvalue.as_sorted).filterMap
    fun x => if x.2.1 ≠ x.2.2 then some x.1 else none

/-- `diff_two_resolvers` (from the raw diff on), with the rule set
`search_known_differences` abstracted as a parameter. -/
def diff_two_resolvers
    (search_known_differences : List String → ValueMap → ValueMap → KnownDiffs)
    (first_keyvalue second_keyvalue : ValueMap) : DifferenceResult :=
  let diff_keys := diffKeys first_keyvalue second_keyvalue
  let known_diffs := search_known_differences diff_keys first_keyvalue second_keyvalue
  let keydiffs := diff_keys.filter fun k => k ∉ knownDiffKeys known_diffs
  if keydiffs.isEmpty then
    .KnownDifference known_diffs.get_total_set
  else
    .NewDifference
      (DiffFingerprint.new keydiffs.toFinset first_keyvalue second_keyvalue)
      known_diffs

/-- The rule-set stub used by the C1 witness: mark every diff key as a
resolver-name difference. -/
def c1skd : List String → ValueMap → ValueMap → KnownDiffs :=
  fun dk _ _ => dk.map fun k => (k, [DifferenceKind.ResolverName])

def c1Left : ValueMap := [(".r", Value.VInteger 1)]

def c1Right : ValueMap := [(".r", Value.VInteger 2)]

/-! ## Theorems -/

theorem zipSorted_leftProj (l : List (K × A)) (r : List (K × B)) :
    leftProj (zipSorted l r) = l := by
  induction l, r using zipSorted.induct with
  | case1 => simp [zipSorted, leftProj]
  | case2 k v r ih => simpa [zipSorted, leftProj] using ih
  | case3 k v l ih =>
      simp only [zipSorted, leftProj, List.filterMap_cons, Option.map_some] at ih ⊢
      simp [ih]
  | case4 kl vl l kr vr r hcmp ih =>
      simp only [zipSorted, hcmp, leftProj, List.filterMap_cons, Option.map_some] at ih ⊢
      have : kl = kr := by
        have := compare_eq_iff_eq (a := kl) (b := kr)
        exact this.mp hcmp
      simp [ih, this]
  | case5 kl vl l kr vr r hcmp ih =>
      simp only [zipSorted, hcmp, leftProj, List.filterMap_cons, Option.map_some] at ih ⊢
      simp [ih]
  | case6 kl vl l kr vr r hcmp ih =>
      simp only [zipSorted, hcmp, leftProj, List.filterMap_cons, Option.map_some] at ih ⊢
      simpa using ih

theorem zipSorted_rightProj (l : List (K × A)) (r : List (K × B)) :
    rightProj (zipSorted l r) = r := by
  induction l, r using zipSorted.induct with
  | case1 => simp [zipSorted, rightProj]
  | case2 k v r ih =>
      simp only [zipSorted, rightProj, List.filterMap_cons, Option.map_some] at ih ⊢
      simp [ih]
  | case3 k v l ih => simpa [zipSorted, rightProj] using ih
  | case4 kl vl l kr vr r hcmp ih =>
      simp only [zipSorted, hcmp, rightProj, List.filterMap_cons, Option.map_some] at ih ⊢
      simp [ih, compare_eq_iff_eq.mp hcmp]
  | case5 kl vl l kr vr r hcmp ih =>
      simp only [zipSorted, hcmp, rightProj, List.filterMap_cons, Option.map_some] at ih ⊢
      simpa using ih
  | case6 kl vl l kr vr r hcmp ih =>
      simp only [zipSorted, hcmp, rightProj, List.filterMap_cons, Option.map_some] at ih ⊢
      simp [ih]

/-- Every key emitted by the merge is a key of one of the two inputs. -/
theorem zipSorted_key_mem {l : List (K × A)} {r : List (K × B)} {k : K}
    (h : k ∈ (zipSorted l r).map Prod.fst) :
    k ∈ l.map Prod.fst ∨ k ∈ r.map Prod.fst := by
  induction l, r using zipSorted.induct with
  | case1 => simp [zipSorted] at h
  | case2 k' v r ih =>
      simp only [zipSorted, List.map_cons, List.mem_cons] at h
      rcases h with h | h
      · right; simp [h]
      · rcases ih h with h' | h'
        · exact Or.inl h'
        · right; simp [h']
  | case3 k' v l ih =>
      simp only [zipSorted, List.map_cons, List.mem_cons] at h
      rcases h with h | h
      · left; simp [h]
      · rcases ih h with h' | h'
        · left; simp [h']
        · exact Or.inr h'
  | case4 kl vl l kr vr r hcmp ih =>
      simp only [zipSorted, hcmp, List.map_cons, List.mem_cons] at h
      rcases h with h | h
      · left; simp [h]
      · rcases ih h with h' | h'
        · left; simp [h']
        · right; simp [h']
  | case5 kl vl l kr vr r hcmp ih =>
      simp only [zipSorted, hcmp, List.map_cons, List.mem_cons] at h
      rcases h with h | h
      · left; simp [h]
      · rcases ih h with h' | h'
        · left; simp [h']
        · exact Or.inr h'
  | case6 kl vl l kr vr r hcmp ih =>
      simp only [zipSorted, hcmp, List.map_cons, List.mem_cons] at h
      rcases h with h | h
      · right; simp [h]
      · rcases ih h with h' | h'
        · exact Or.inl h'
        · right; simp [h']

/-- The keys of the merge are strictly increasing when both inputs are
strictly key-sorted. -/
theorem zipSorted_keys_pairwise {l : List (K × A)} {r : List (K × B)}
    (hl : (l.map Prod.fst).Pairwise (· < ·))
    (hr : (r.map Prod.fst).Pairwise (· < ·)) :
    ((zipSorted l r).map Prod.fst).Pairwise (· < ·) := by
  induction l, r using zipSorted.induct with
  | case1 => simp [zipSorted]
  | case2 k v r ih =>
      simp only [zipSorted, List.map_cons, List.pairwise_cons] at hr ⊢
      refine ⟨fun k' hk' => ?_, ih hl hr.2⟩
      rcases zipSorted_key_mem hk' with h' | h'
      · simp at h'
      · exact hr.1 _ h'
  | case3 k v l ih =>
      simp only [zipSorted, List.map_cons, List.pairwise_cons] at hl ⊢
      refine ⟨fun k' hk' => ?_, ih hl.2 hr⟩
      rcases zipSorted_key_mem hk' with h' | h'
      · exact hl.1 _ h'
      · simp at h'
  | case4 kl vl l kr vr r hcmp ih =>
      have hk : kl = kr := compare_eq_iff_eq.mp hcmp
      simp only [zipSorted, hcmp, List.map_cons, List.pairwise_cons] at hl hr ⊢
      refine ⟨fun k' hk' => ?_, ih hl.2 hr.2⟩
      rcases zipSorted_key_mem hk' with h' | h'
      · exact hl.1 _ h'
      · exact hk ▸ hr.1 _ h'
  | case5 kl vl l kr vr r hcmp ih =>
      have hk : kl < kr := compare_lt_iff_lt.mp hcmp
      simp only [zipSorted, List.map_cons, List.pairwise_cons, hcmp] at hl hr ⊢
      refine ⟨fun k' hk' => ?_,
        ih hl.2 (by rw [List.map_cons, List.pairwise_cons]; exact ⟨fun a ha => hr.1 a ha, hr.2⟩)⟩
      rcases zipSorted_key_mem hk' with h' | h'
      · exact hl.1 _ h'
      · simp only [List.map_cons, List.mem_cons] at h'
        rcases h' with h' | h'
        · exact h' ▸ hk
        · exact lt_trans hk (hr.1 _ h')
  | case6 kl vl l kr vr r hcmp ih =>
      have hk : kr < kl := compare_gt_iff_gt.mp hcmp
      simp only [zipSorted, List.map_cons, List.pairwise_cons, hcmp] at hl hr ⊢
      refine ⟨fun k' hk' => ?_,
        ih (by rw [List.map_cons, List.pairwise_cons]; exact ⟨fun a ha => hl.1 a ha, hl.2⟩) hr.2⟩
      rcases zipSorted_key_mem hk' with h' | h'
      · simp only [List.map_cons, List.mem_cons] at h'
        rcases h' with h' | h'
        · exact h' ▸ hk
        · exact lt_trans hk (hl.1 _ h')
      · exact hr.1 _ h'

/-- The merge is empty exactly when both inputs are exhausted. -/
theorem zipSorted_eq_nil_iff (l : List (K × A)) (r : List (K × B)) :
    zipSorted l r = [] ↔ l = [] ∧ r = [] := by
  constructor
  · intro h
    have hl := zipSorted_leftProj l r
    have hr := zipSorted_rightProj l r
    rw [h] at hl hr
    exact ⟨hl.symm, hr.symm⟩
  · rintro ⟨rfl, rfl⟩
    simp [zipSorted]

/-- C8: For every pair of key-sorted maps, the zip-sort merge emits triples
`(key, Option left, Option right)` whose keys are strictly increasing, in
which every input pair of either map appears exactly once (recovered in
order by projecting the left/right components; a key present in both maps
yields the one triple carrying both), and the merge is exhausted exactly
when both inputs are. -/
theorem claim_C8_zip_sorted_merge {K A B : Type} [LinearOrder K]
    (l : List (K × A)) (r : List (K × B))
    (hl : (l.map Prod.fst).Pairwise (· < ·))
    (hr : (r.map Prod.fst).Pairwise (· < ·)) :
    ((zipSorted l r).map Prod.fst).Pairwise (· < ·) ∧
    leftProj (zipSorted l r) = l ∧
    rightProj (zipSorted l r) = r ∧
    (zipSorted l r = [] ↔ l = [] ∧ r = []) :=
  ⟨zipSorted_keys_pairwise hl hr, zipSorted_leftProj l r, zipSorted_rightProj l r,
    zipSorted_eq_nil_iff l r⟩

theorem claim_C8_zip_sorted_merge_witness :
    (([(1, 10), (3, 30)] : List (ℕ × ℕ)).map Prod.fst).Pairwise (· < ·) ∧
    (([(2, 5), (3, 7)] : List (ℕ × ℕ)).map Prod.fst).Pairwise (· < ·) ∧
    (((zipSorted ([(1, 10), (3, 30)] : List (ℕ × ℕ))
        ([(2, 5), (3, 7)] : List (ℕ × ℕ))).map Prod.fst).Pairwise (· < ·) ∧
      leftProj (zipSorted ([(1, 10), (3, 30)] : List (ℕ × ℕ))
        ([(2, 5), (3, 7)] : List (ℕ × ℕ))) = [(1, 10), (3, 30)] ∧
      rightProj (zipSorted ([(1, 10), (3, 30)] : List (ℕ × ℕ))
        ([(2, 5), (3, 7)] : List (ℕ × ℕ))) = [(2, 5), (3, 7)] ∧
      (zipSorted ([(1, 10), (3, 30)] : List (ℕ × ℕ))
        ([(2, 5), (3, 7)] : List (ℕ × ℕ)) = [] ↔
        ([(1, 10), (3, 30)] : List (ℕ × ℕ)) = [] ∧
        ([(2, 5), (3, 7)] : List (ℕ × ℕ)) = [])) :=
  ⟨by decide, by decide,
    claim_C8_zip_sorted_merge [(1, 10), (3, 30)] [(2, 5), (3, 7)]
      (by decide) (by decide)⟩

section PrioQueueLemmas

variable {T : Type} [LinearOrder T] {α : Type}

theorem popMax_eq_none_iff (q : List (ℚ × T)) : popMax q = none ↔ q = [] := by
  constructor
  · intro h
    cases q with
    | nil => rfl
    | cons e es =>
      simp only [popMax] at h
      rcases hes : popMax es with _ | p
      · simp [hes] at h
      · rw [hes] at h
        by_cases hlt : entryLtb e p.1 <;> simp [hlt] at h
  · rintro rfl; rfl

theorem popMax_perm {q : List (ℚ × T)} {e : ℚ × T} {rest : List (ℚ × T)}
    (h : popMax q = some (e, rest)) : q.Perm (e :: rest) := by
  induction q generalizing e rest with
  | nil => simp [popMax] at h
  | cons x xs ih =>
    rw [popMax] at h
    rcases hxs : popMax xs with _ | ⟨m, r⟩
    · rw [hxs] at h
      cases h
      exact List.Perm.refl _
    · rw [hxs] at h
      by_cases hlt : entryLtb x m
      · simp only [hlt, if_true] at h
        cases h
        exact (List.Perm.cons x (ih hxs)).trans (List.Perm.swap _ _ _)
      · simp only [hlt, if_false, Bool.false_eq_true] at h
        cases h
        exact List.Perm.refl _

theorem alookup_eq_none_iff {m : List (T × α)} {v : T} :
    alookup m v = none ↔ v ∉ m.map Prod.fst := by
  induction m with
  | nil => simp [alookup]
  | cons x xs ih =>
    by_cases hx : x.1 = v
    · simp [alookup, hx]
    · simp [alookup, hx, ih, Ne.symm hx]

/-- `BTreeMap::remove` splits off exactly one occurrence of the key. -/
theorem lookupRemove_keys_perm {pen : List (T × ℕ)} {v : T} {k : ℕ}
    {pen' : List (T × ℕ)} (h : lookupRemove pen v = some (k, pen')) :
    (pen.map Prod.fst).Perm (v :: pen'.map Prod.fst) := by
  induction pen generalizing k pen' with
  | nil => simp [lookupRemove] at h
  | cons x xs ih =>
    rw [lookupRemove] at h
    by_cases hx : x.1 = v
    · rw [if_pos hx] at h
      cases h
      simp [hx]
    · rw [if_neg hx] at h
      rcases hxs : lookupRemove xs v with _ | ⟨c, p⟩
      · simp [hxs] at h
      · rw [hxs] at h
        cases h
        have step : (x.1 :: xs.map Prod.fst).Perm (x.1 :: v :: p.map Prod.fst) :=
          List.Perm.cons x.1 (ih hxs)
        simpa using step.trans (List.Perm.swap _ _ _)

theorem lookupRemove_length {pen : List (T × ℕ)} {v : T} {k : ℕ}
    {pen' : List (T × ℕ)} (h : lookupRemove pen v = some (k, pen')) :
    pen'.length + 1 = pen.length := by
  have := (lookupRemove_keys_perm h).length_eq
  simp only [List.length_map, List.length_cons] at this
  omega

theorem lookupRemove_cleared {pen : List (T × ℕ)} {v : T} {k : ℕ}
    {pen' : List (T × ℕ)} (hnd : (pen.map Prod.fst).Nodup)
    (h : lookupRemove pen v = some (k, pen')) : alookup pen' v = none := by
  have hperm := lookupRemove_keys_perm h
  have : (v :: pen'.map Prod.fst).Nodup := hperm.nodup hnd
  exact alookup_eq_none_iff.mpr (List.nodup_cons.mp this).1

end PrioQueueLemmas

/-- C6: Starting from an empty `PriorityQueue`, after `push(v, 100.0)` the
first `get_and_requeue_n(1)` returns `[v]` and leaves `v` queued with
internal priority `100·DECAY`; a second `get_and_requeue_n(1)` again
returns `[v]` and leaves `v` queued with priority `100·DECAY²`
(= 82.81). -/
theorem claim_C6_push_then_requeue_twice (v : ℕ) :
    ((PriorityQueue.new ℕ).push 100 v |>.get_and_requeue_n 1).1 = [v] ∧
    ((PriorityQueue.new ℕ).push 100 v |>.get_and_requeue_n 1).2.queue =
      [(100 * DECAY_FACTOR, v)] ∧
    (((PriorityQueue.new ℕ).push 100 v |>.get_and_requeue_n 1).2.get_and_requeue_n 1).1 =
      [v] ∧
    (((PriorityQueue.new ℕ).push 100 v |>.get_and_requeue_n 1).2.get_and_requeue_n 1).2.queue =
      [(100 * DECAY_FACTOR ^ 2, v)] := by
  refine ⟨?_, ?_, ?_, ?_⟩ <;>
    simp [PriorityQueue.new, PriorityQueue.push, PriorityQueue.get_and_requeue_n,
      gar, popMax, lookupRemove] <;> ring

section GarSteps

variable {T : Type} [LinearOrder T] {q q' : List (ℚ × T)} {pen pen' : List (T × ℕ)}
variable {res : List T} {buffer : List (ℚ × T)} {n : ℕ} {item : ℚ × T} {k : ℕ}

theorem gar_stop (hres : ¬ res.length < n) :
    gar q pen res buffer n = (res, q ++ buffer, pen) := by
  rw [gar, dif_neg hres]

theorem gar_empty (hres : res.length < n) (hq : popMax q = none) :
    gar q pen res buffer n = (res, q ++ buffer, pen) := by
  conv_lhs => rw [gar]
  rw [dif_pos hres]
  split
  · next heq => rw [hq] at heq; cases heq
  · rfl

/-- When the popped entry has a pending penalty of `k`, the loop multiplies
its priority by `DECAY_FACTOR^k`, removes the penalty entry and pushes the
entry back without serving it. -/
theorem gar_penalty_step (hres : res.length < n)
    (hq : popMax q = some (item, q'))
    (hp : lookupRemove pen item.2 = some (k, pen')) :
    gar q pen res buffer n =
      gar (q' ++ [(item.1 * DECAY_FACTOR ^ k, item.2)]) pen' res buffer n := by
  conv_lhs => rw [gar]
  rw [dif_pos hres]
  split
  · next heq =>
      rw [hq] at heq
      cases heq
      split
      · next heq' => rw [hp] at heq'; cases heq'; rfl
      · next heq' => rw [hp] at heq'; cases heq'
  · next heq => rw [hq] at heq; cases heq

/-- When the popped entry has no pending penalty, the loop decays it once,
serves its value and parks the decayed entry in the buffer. -/
theorem gar_serve_step (hres : res.length < n)
    (hq : popMax q = some (item, q'))
    (hp : lookupRemove pen item.2 = none) :
    gar q pen res buffer n =
      gar q' pen (res ++ [item.2]) (buffer ++ [(item.1 * DECAY_FACTOR, item.2)]) n := by
  conv_lhs => rw [gar]
  rw [dif_pos hres]
  split
  · next heq =>
      rw [hq] at heq
      cases heq
      split
      · next heq' => rw [hp] at heq'; cases heq'
      · rfl
  · next heq => rw [hq] at heq; cases heq

end GarSteps

theorem gar_spec {T : Type} [LinearOrder T] (q : List (ℚ × T)) (pen : List (T × ℕ))
    (res : List T) (buffer : List (ℚ × T)) (n : ℕ) (h : res.length ≤ n) :
    (gar q pen res buffer n).1.length = min n (res.length + q.length) ∧
    ((gar q pen res buffer n).2.1.map Prod.snd : Multiset T) =
      (q.map Prod.snd : Multiset T) + (buffer.map Prod.snd : Multiset T) := by
  induction q, pen, res, buffer, n using gar.induct with
  | case1 q pen res buffer n hres item q' hq stored_penalty pen' hp ih =>
    rw [gar_penalty_step hres hq hp]
    have hperm := popMax_perm hq
    have hlen : q.length = q'.length + 1 := by simpa using hperm.length_eq
    have hmul : (q.map Prod.snd : Multiset T) = item.2 ::ₘ (q'.map Prod.snd : Multiset T) :=
      Multiset.coe_eq_coe.mpr (hperm.map Prod.snd)
    obtain ⟨ih1, ih2⟩ := ih h
    refine ⟨?_, ?_⟩
    · rw [ih1]
      simp only [List.length_append, List.length_cons, List.length_nil]
      omega
    · rw [ih2, hmul, ← Multiset.singleton_add, ← Multiset.coe_singleton]
      simp only [List.map_append, List.map_cons, List.map_nil, Multiset.coe_add]
      refine Multiset.coe_eq_coe.mpr ?_
      rw [List.append_assoc]
      exact List.perm_middle
  | case2 q pen res buffer n hres item q' hq hp ih =>
    rw [gar_serve_step hres hq hp]
    have hperm := popMax_perm hq
    have hlen : q.length = q'.length + 1 := by simpa using hperm.length_eq
    have hmul : (q.map Prod.snd : Multiset T) = item.2 ::ₘ (q'.map Prod.snd : Multiset T) :=
      Multiset.coe_eq_coe.mpr (hperm.map Prod.snd)
    obtain ⟨ih1, ih2⟩ := ih (by simp; omega)
    refine ⟨?_, ?_⟩
    · rw [ih1]
      simp only [List.length_append, List.length_cons, List.length_nil]
      omega
    · rw [ih2, hmul, ← Multiset.singleton_add, ← Multiset.coe_singleton]
      simp only [List.map_append, List.map_cons, List.map_nil, Multiset.coe_add]
      refine Multiset.coe_eq_coe.mpr ?_
      rw [← List.append_assoc]
      exact List.perm_append_singleton _ _
  | case3 q pen res buffer n hres hq =>
    rw [gar_empty hres hq]
    obtain rfl := popMax_eq_none_iff q |>.mp hq
    constructor
    · simp only [List.length_nil, Nat.add_zero]
      omega
    · simp
  | case4 q pen res buffer n hres =>
    rw [gar_stop hres]
    have : res.length = n := by omega
    constructor
    · simp [this]
    · simp [← Multiset.coe_add]

/-- C10: For every `PriorityQueue` state and every `n`,
`get_and_requeue_n(n)` returns exactly `min(n, number of heap entries)`
values and leaves the number of heap entries unchanged: every popped entry
(penalty-adjusted or served) is re-inserted before the call returns — so
the multiset of queued values is preserved — and a served entry is parked
outside the heap until the call ends, so it is served at most once. -/
theorem claim_C10_get_and_requeue_n_conservation {T : Type} [LinearOrder T]
    (st : PriorityQueue T) (n : ℕ) :
    (st.get_and_requeue_n n).1.length = min n st.queue.length ∧
    ((st.get_and_requeue_n n).2.queue.map Prod.snd : Multiset T) =
      (st.queue.map Prod.snd : Multiset T) ∧
    (st.get_and_requeue_n n).2.queue.length = st.queue.length := by
  have h := gar_spec st.queue st.penalties [] [] n (by simp)
  refine ⟨?_, ?_, ?_⟩
  · simpa [PriorityQueue.get_and_requeue_n] using h.1
  · simpa [PriorityQueue.get_and_requeue_n] using h.2
  · have hc := congrArg Multiset.card h.2
    simpa [PriorityQueue.get_and_requeue_n] using hc

section DecayLemmas

variable {T : Type} [LinearOrder T]

theorem alookup_decayOrig (m : List (T × ℚ)) (v x : T) :
    alookup (decayOrig m v) x =
      if x = v then (alookup m v).map (· * DECAY_FACTOR) else alookup m x := by
  induction m with
  | nil => simp [decayOrig, alookup]
  | cons e rest ih =>
    obtain ⟨k, p⟩ := e
    by_cases hk : k = v
    · subst hk
      by_cases hx : x = k
      · subst hx
        simp [decayOrig, alookup]
      · simp [decayOrig, alookup, hx, Ne.symm hx]
    · by_cases hx : x = v
      · subst hx
        have hkx : k ≠ x := hk
        simp [decayOrig, alookup, hkx, hk, ih]
      · by_cases hkx : k = x
        · subst hkx
          simp [decayOrig, alookup, hk, hx]
        · simp [decayOrig, alookup, hk, hx, hkx, ih]

theorem alookup_bumpPenalty (m : List (T × ℕ)) (v x : T) :
    alookup (bumpPenalty m v) x =
      if x = v then some ((alookup m v).getD 0 + 1) else alookup m x := by
  induction m with
  | nil =>
    by_cases hx : x = v
    · subst hx
      simp [bumpPenalty, alookup]
    · simp [bumpPenalty, alookup, hx, Ne.symm hx]
  | cons e rest ih =>
    obtain ⟨k, p⟩ := e
    by_cases hk : k = v
    · subst hk
      by_cases hx : x = k
      · subst hx
        simp [bumpPenalty, alookup]
      · simp [bumpPenalty, alookup, hx, Ne.symm hx]
    · by_cases hx : x = v
      · subst hx
        have hkx : k ≠ x := hk
        simp [bumpPenalty, alookup, hkx, hk, ih]
      · by_cases hkx : k = x
        · subst hkx
          simp [bumpPenalty, alookup, hk, hx]
        · simp [bumpPenalty, alookup, hk, hx, hkx, ih]

/-- Lookup view of the whole `decay(ids)` fold, for a duplicate-free id
set: each member's penalty is bumped exactly once and its original
priority is multiplied by `DECAY_FACTOR` exactly once; non-members are
untouched. -/
theorem decay_fold_spec (ids : List T) (st : PriorityQueue T) (hnd : ids.Nodup) (v : T) :
    (v ∈ ids →
      alookup (st.decay ids).original_priorities v =
        (alookup st.original_priorities v).map (· * DECAY_FACTOR) ∧
      alookup (st.decay ids).penalties v =
        some ((alookup st.penalties v).getD 0 + 1)) ∧
    (v ∉ ids →
      alookup (st.decay ids).original_priorities v = alookup st.original_priorities v ∧
      alookup (st.decay ids).penalties v = alookup st.penalties v) ∧
    (st.decay ids).queue = st.queue := by
  induction ids generalizing st with
  | nil => simp [PriorityQueue.decay]
  | cons i rest ih =>
    have hnd' : rest.Nodup := (List.nodup_cons.mp hnd).2
    have hni : i ∉ rest := (List.nodup_cons.mp hnd).1
    have hstep : (st.decay (i :: rest)) =
        (PriorityQueue.mk st.queue (decayOrig st.original_priorities i)
          (bumpPenalty st.penalties i)).decay rest := by
      simp [PriorityQueue.decay]
    rw [hstep]
    obtain ⟨hmem, hnmem, hqueue⟩ := ih _ hnd'
    refine ⟨?_, ?_, by simpa using hqueue⟩
    · intro hv
      rcases List.mem_cons.mp hv with rfl | hv'
      · obtain ⟨ho, hp⟩ := hnmem hni
        rw [ho, hp]
        simp [alookup_decayOrig, alookup_bumpPenalty]
      · obtain ⟨ho, hp⟩ := hmem hv'
        rw [ho, hp]
        have hne : v ≠ i := fun hc => hni (hc ▸ hv')
        simp [alookup_decayOrig, alookup_bumpPenalty, hne]
    · intro hv
      have hv1 : v ≠ i := fun hc => hv (hc ▸ List.mem_cons_self i rest)
      have hv2 : v ∉ rest := fun hc => hv (List.mem_cons_of_mem i hc)
      obtain ⟨ho, hp⟩ := hnmem hv2
      rw [ho, hp]
      simp [alookup_decayOrig, alookup_bumpPenalty, hv1]

end DecayLemmas

/-- C7: `decay(S)` increments `penalties[v]` by one and multiplies the
`original_priorities[v]` entry by `DECAY_FACTOR` exactly once for each
member `v` of the id set, leaving non-members untouched; and when an item
with pending penalty count `k` is popped inside `get_and_requeue_n`, its
queued priority is multiplied by `DECAY_FACTOR^k` and its penalties entry
is removed (so it is not served in that step but pushed back). -/
theorem claim_C7_decay_and_penalty_application {T : Type} [LinearOrder T] :
    (∀ (ids : List T) (st : PriorityQueue T), ids.Nodup → ∀ v : T,
      (v ∈ ids →
        alookup (st.decay ids).original_priorities v =
          (alookup st.original_priorities v).map (· * DECAY_FACTOR) ∧
        alookup (st.decay ids).penalties v =
          some ((alookup st.penalties v).getD 0 + 1)) ∧
      (v ∉ ids →
        alookup (st.decay ids).original_priorities v = alookup st.original_priorities v ∧
        alookup (st.decay ids).penalties v = alookup st.penalties v)) ∧
    (∀ (q q' : List (ℚ × T)) (pen pen' : List (T × ℕ)) (res : List T)
        (buffer : List (ℚ × T)) (n : ℕ) (item : ℚ × T) (k : ℕ),
      res.length < n →
      popMax q = some (item, q') →
      lookupRemove pen item.2 = some (k, pen') →
      (gar q pen res buffer n =
        gar (q' ++ [(item.1 * DECAY_FACTOR ^ k, item.2)]) pen' res buffer n) ∧
      ((pen.map Prod.fst).Nodup → alookup pen' item.2 = none)) := by
  constructor
  · intro ids st hnd v
    exact ⟨(decay_fold_spec ids st hnd v).1, (decay_fold_spec ids st hnd v).2.1⟩
  · intro q q' pen pen' res buffer n item k hres hq hp
    exact ⟨gar_penalty_step hres hq hp, fun hnd => lookupRemove_cleared hnd hp⟩

theorem claim_C7_decay_and_penalty_application_witness :
    ([0] : List ℕ).Nodup ∧
    (0 : ℕ) ∈ ([0] : List ℕ) ∧
    (0 : ℕ) < 1 ∧
    popMax [((3 : ℚ), (0 : ℕ))] = some (((3 : ℚ), (0 : ℕ)), []) ∧
    lookupRemove [((0 : ℕ), 2)] 0 = some (2, []) ∧
    ([((0 : ℕ), 2)].map Prod.fst).Nodup ∧
    (alookup ((PriorityQueue.mk [] [((0 : ℕ), (5 : ℚ))] []).decay [0]).original_priorities 0 =
        (alookup [((0 : ℕ), (5 : ℚ))] 0).map (· * DECAY_FACTOR) ∧
      alookup ((PriorityQueue.mk [] [((0 : ℕ), (5 : ℚ))] []).decay [0]).penalties 0 =
        some ((alookup ([] : List (ℕ × ℕ)) 0).getD 0 + 1)) ∧
    gar [((3 : ℚ), (0 : ℕ))] [(0, 2)] [] [] 1 =
      gar ([] ++ [((3 : ℚ) * DECAY_FACTOR ^ 2, (0 : ℕ))]) [] [] [] 1 ∧
    alookup ([] : List (ℕ × ℕ)) 0 = none := by
  have C := claim_C7_decay_and_penalty_application (T := ℕ)
  have h1 := (C.1 [0] (PriorityQueue.mk [] [((0 : ℕ), (5 : ℚ))] []) (by decide) 0).1
    (by decide)
  have h2 := C.2 [((3 : ℚ), (0 : ℕ))] [] [(0, 2)] [] [] [] 1 ((3 : ℚ), (0 : ℕ)) 2
    (by decide) rfl rfl
  exact ⟨by decide, by decide, by decide, rfl, rfl, by decide,
    ⟨h1.1, h1.2⟩, h2.1, h2.2 (by decide)⟩

/-- C4 counterexample: `min_pairwise` (a binary `Counters` operation) does
not check the equal-length precondition: on the mismatched inputs
`[3, 4]` and `[1]` it silently produces `[1, 4]` instead of failing. -/
theorem claim_C4_counterexample :
    Counters.min_pairwise [3, 4] [1] = [1, 4] ∧
    List.length ([3, 4] : Counters) ≠ List.length ([1] : Counters) := by
  constructor
  · rfl
  · decide

/-- C4 as amended: `+`, `discard_counters_by_pattern` and
`shrink_by_pattern` check the equal-length precondition and fail fast on a
mismatch, but `min_pairwise` and `max_pairwise` perform no check: they
take the pairwise min/max over the common prefix and leave the remaining
elements of `self` unchanged (so `self` keeps its length). -/
theorem claim_C4_binary_ops_length_check (a b : Counters)
    (h : List.length a ≠ List.length b) :
    Counters.add a b = none ∧
    Counters.discard_counters_by_pattern a b = none ∧
    Counters.shrink_by_pattern a b = none ∧
    Counters.min_pairwise a b = List.zipWith min a b ++ List.drop (List.length b) a ∧
    Counters.max_pairwise a b = List.zipWith max a b ++ List.drop (List.length b) a ∧
    List.length (Counters.min_pairwise a b) = List.length a ∧
    List.length (Counters.max_pairwise a b) = List.length a := by
  refine ⟨by simp [Counters.add, h], by simp [Counters.discard_counters_by_pattern, h],
    by simp [Counters.shrink_by_pattern, h], rfl, rfl, ?_, ?_⟩ <;>
  · simp only [Counters.min_pairwise, Counters.max_pairwise, List.length_append,
      List.length_zipWith, List.length_drop]
    omega

theorem claim_C4_binary_ops_length_check_witness :
    List.length ([3, 4] : Counters) ≠ List.length ([1] : Counters) ∧
    (Counters.add [3, 4] [1] = none ∧
      Counters.discard_counters_by_pattern [3, 4] [1] = none ∧
      Counters.shrink_by_pattern [3, 4] [1] = none ∧
      Counters.min_pairwise [3, 4] [1] =
        List.zipWith min [3, 4] [1] ++ List.drop (List.length ([1] : Counters)) [3, 4] ∧
      Counters.max_pairwise [3, 4] [1] =
        List.zipWith max [3, 4] [1] ++ List.drop (List.length ([1] : Counters)) [3, 4] ∧
      List.length (Counters.min_pairwise [3, 4] [1]) = List.length ([3, 4] : Counters) ∧
      List.length (Counters.max_pairwise [3, 4] [1]) = List.length ([3, 4] : Counters)) :=
  ⟨by decide, claim_C4_binary_ops_length_check [3, 4] [1] (by decide)⟩

/-- C3 refuted on the code: when the round-tripped request fails to
re-parse, `create_response` skips the `query_list` push but still records
an `answer_index` entry, so the two lists end up with different lengths
(0 vs 1 from the empty state) — contradicting the documented invariant
that `get_query_list` returns two lists of equal length. -/
theorem claim_C3_parse_failure_desyncs :
    ((create_response ⟨[], [], []⟩ exampleRequest none).2.query_list.length ≠
      (create_response ⟨[], [], []⟩ exampleRequest none).2.answer_index.length) ∧
    (create_response ⟨[], [], []⟩ exampleRequest none).2.query_list.length = 0 ∧
    (create_response ⟨[], [], []⟩ exampleRequest none).2.answer_index.length = 1 ∧
    ((get_query_list (create_response ⟨[], [], []⟩ exampleRequest none).2).1.1.length ≠
      (get_query_list (create_response ⟨[], [], []⟩ exampleRequest none).2).1.2.length) := by
  refine ⟨?_, rfl, rfl, ?_⟩ <;> decide

theorem scanResponses_eq_none {frs : List DnsMsg} {q : Question}
    (h : ∀ resp ∈ frs, ∀ rq ∈ resp.queries, questionMatches rq q = false) (i : ℕ) :
    scanResponses frs q i = none := by
  induction frs generalizing i with
  | nil => rfl
  | cons resp rest ih =>
    have hall : (resp.queries.any fun rq => questionMatches rq q) = false := by
      rw [List.any_eq_false]
      intro rq hrq
      simp [h resp (List.mem_cons_self _ _) rq hrq]
    rw [scanResponses, hall]
    simp only [Bool.false_eq_true, if_false]
    exact ih (fun r hr => h r (List.mem_cons_of_mem _ hr)) _

/-- C9: For every request whose question matches no entry of
`fuzzing_response`, the AuthNS records the sentinel `usize::MAX` in
`answer_index` and returns a NoError response with an empty answer section
and exactly one SOA in the authority section, owned by the request name
trimmed to its last two labels, TTL 300, mname `private.server.` and
rname `testing.test.`. -/
theorem claim_C9_default_nodata_soa (st : DynamicAuthState)
    (request : MessageRequest) (reparsed : Option DnsMsg)
    (hnom : ∀ resp ∈ st.fuzzing_response, ∀ rq ∈ resp.queries,
      questionMatches rq request.query = false) :
    (create_response st request reparsed).2.answer_index =
      st.answer_index ++ [USIZE_MAX] ∧
    (create_response st request reparsed).1.response_code = .NoError ∧
    (create_response st request reparsed).1.answers = [] ∧
    (create_response st request reparsed).1.name_servers =
      [{ name := trimTo request.query.qname 2
         ttl := 300
         rdata := .SOA ["private", "server"] ["testing", "test"]
           15337002 1800 900 604800 1800 }] := by
  have hscan := scanResponses_eq_none hnom 0
  cases reparsed <;>
    simp [create_response, hscan, create_error_response, ResponseCode.high,
      ResponseCode.toNat, create_empty_response_from_request, DnsMsg.new]

theorem claim_C9_default_nodata_soa_witness :
    (∀ resp ∈ (⟨[], [], []⟩ : DynamicAuthState).fuzzing_response,
      ∀ rq ∈ resp.queries, questionMatches rq exampleRequest.query = false) ∧
    (create_response ⟨[], [], []⟩ exampleRequest none).2.answer_index = [USIZE_MAX] ∧
    (create_response ⟨[], [], []⟩ exampleRequest none).1.response_code = .NoError ∧
    (create_response ⟨[], [], []⟩ exampleRequest none).1.answers = [] ∧
    (create_response ⟨[], [], []⟩ exampleRequest none).1.name_servers =
      [{ name := ["0001", "fuzz"]
         ttl := 300
         rdata := .SOA ["private", "server"] ["testing", "test"]
           15337002 1800 900 604800 1800 }] := by
  have h := claim_C9_default_nodata_soa ⟨[], [], []⟩ exampleRequest none
    (by intro resp hresp; cases hresp)
  exact ⟨(by intro resp hresp; cases hresp), (by simpa using h.1), h.2.1, h.2.2.1,
    (by simpa [exampleRequest, trimTo] using h.2.2.2)⟩

/-- C5 refuted on the code: the `responds_to_response` check sits inside
`if let Some(resp) = &mut fr.fuzzee_response`, so for a result without a
`fuzzee_response` the flag stays `false` even though the originating
`client_query` has `message_type = Response` — against the claim's "with
no further precondition". -/
theorem claim_C5_counterexample :
    c5Case.client_query.message_type = MessageType.Response ∧
    (apply_oracles [c5Case] c5Result).map (fun fr => fr.oracles.responds_to_response) =
      some false := by
  exact ⟨rfl, rfl⟩

/-- C5 as amended: after the oracle block, `responds_to_response` is set
iff it was already set or the result carries a `fuzzee_response` and the
originating case's `client_query` has `message_type = Response`; without a
`fuzzee_response` the flag is left unchanged. -/
theorem claim_C5_responds_to_response_amended (test_cases : List FuzzCaseM)
    (fr : FuzzResultM) :
    (∀ resp tc, fr.fuzzee_response = some resp →
      test_cases.find? (fun tc => tc.id == fr.id) = some tc →
      ∃ fr', apply_oracles test_cases fr = some fr' ∧
        fr'.oracles.responds_to_response =
          (fr.oracles.responds_to_response ||
            decide (tc.client_query.message_type = MessageType.Response))) ∧
    (fr.fuzzee_response = none →
      ∃ fr', apply_oracles test_cases fr = some fr' ∧
        fr'.oracles.responds_to_response = fr.oracles.responds_to_response) := by
  constructor
  · intro resp tc hresp hfind
    by_cases h1 : resp.answer_count + resp.name_server_count + resp.additional_count >
        EXCESSIVE_ANSWER_RECORDS_COUNT <;>
    by_cases h2 : (hasDuplicates resp.answers || hasDuplicates resp.name_servers ||
        hasDuplicates resp.additionals) = true <;>
    by_cases h3 : tc.client_query.message_type = MessageType.Response <;>
    by_cases h4 : fr.fuzzee_queries.length > EXCESSIVE_QUERIES_COUNT <;>
    · simp [apply_oracles, hresp, hfind, h1, h2, h3, h4]
  · intro hresp
    by_cases h4 : fr.fuzzee_queries.length > EXCESSIVE_QUERIES_COUNT <;>
    · simp [apply_oracles, hresp, h4]

theorem claim_C5_responds_to_response_amended_witness :
    (c5ResultWithResponse.fuzzee_response = some c5Resp ∧
      [c5Case].find? (fun tc => tc.id == c5ResultWithResponse.id) = some c5Case ∧
      c5Result.fuzzee_response = none) ∧
    (∃ fr', apply_oracles [c5Case] c5ResultWithResponse = some fr' ∧
      fr'.oracles.responds_to_response =
        (c5ResultWithResponse.oracles.responds_to_response ||
          decide (c5Case.client_query.message_type = MessageType.Response))) ∧
    (∃ fr', apply_oracles [c5Case] c5Result = some fr' ∧
      fr'.oracles.responds_to_response = c5Result.oracles.responds_to_response) :=
  ⟨⟨rfl, rfl, rfl⟩,
    (claim_C5_responds_to_response_amended [c5Case] c5ResultWithResponse).1
      c5Resp c5Case rfl rfl,
    (claim_C5_responds_to_response_amended [c5Case] c5Result).2 rfl⟩

theorem tupleCompare_self {T : Type} [LinearOrder T] (x : T × T) :
    tupleCompare x x = Ordering.eq := by
  have h1 : compare x.1 x.1 = Ordering.eq := compare_eq_iff_eq.mpr rfl
  have h2 : compare x.2 x.2 = Ordering.eq := compare_eq_iff_eq.mpr rfl
  simp [tupleCompare, h1, h2]

theorem as_ordered_tuple_swap {T : Type} [LinearOrder T] (a b : T) :
    (UnorderedPair.mk a b).as_ordered_tuple = (UnorderedPair.mk b a).as_ordered_tuple := by
  unfold UnorderedPair.as_ordered_tuple
  rcases h : compare a b with _ | _ | _
  · have hba : compare b a = Ordering.gt := compare_gt_iff_gt.mpr (compare_lt_iff_lt.mp h)
    simp [hba]
  · obtain rfl : a = b := compare_eq_iff_eq.mp h
    have hba : compare a a = Ordering.eq := compare_eq_iff_eq.mpr rfl
    simp [hba]
  · have hba : compare b a = Ordering.lt := compare_lt_iff_lt.mpr (compare_gt_iff_gt.mp h)
    simp [hba]

/-- C2: `UnorderedPair(a, b)` equals `UnorderedPair(b, a)` under the
pair's equality, and compares `Equal` under its canonicalizing ordering;
consequently the `DiffFingerprint` built from `(left, right)` equals the
one built from `(right, left)` — `key_diffs` does not depend on the side
order and `special_fields` is an unordered pair. -/
theorem claim_C2_unordered_pair_symmetry :
    (∀ (T : Type) (a b : T), UnorderedPair.eqv ⟨a, b⟩ ⟨b, a⟩) ∧
    (∀ (T : Type) [LinearOrder T] (a b : T),
      UnorderedPair.cmp ⟨a, b⟩ ⟨b, a⟩ = Ordering.eq) ∧
    (∀ (kd : Finset String) (l r : ValueMap),
      DiffFingerprint.eqv (DiffFingerprint.new kd l r) (DiffFingerprint.new kd r l)) := by
  refine ⟨fun T a b => Or.inr ⟨rfl, rfl⟩, fun T _ a b => ?_, fun kd l r => ?_⟩
  · rw [UnorderedPair.cmp, as_ordered_tuple_swap]
    exact tupleCompare_self _
  · exact ⟨rfl, Or.inr ⟨rfl, rfl⟩⟩

theorem fingerprint_filter_toFinset (dkl : List String) (kdl : KnownDiffs)
    (f s : ValueMap) :
    (DiffFingerprint.new ((dkl.filter fun k => k ∉ knownDiffKeys kdl).toFinset)
        f s).key_diffs =
      (dkl.filter fun k => k ∉ knownDiffKeys kdl ∧
        isCacheStateKey k = false).toFinset := by
  rw [DiffFingerprint.new]
  ext x
  simp only [Finset.mem_filter, List.mem_toFinset, List.mem_filter, decide_eq_true_eq]
  tauto

/-- C1: If every differing key receives at least one `DifferenceKind`
from the rule set, the matcher returns `KnownDifference` with the set of
all assigned kinds; otherwise it returns `NewDifference` whose
fingerprint's `key_diffs` is exactly the set of unexplained differing
keys with every `.fuzz_result.cache_state` key removed.  Stated for an
arbitrary rule-set result, hence in particular for
`search_known_differences`. -/
theorem claim_C1_matcher_known_vs_new
    (skd : List String → ValueMap → ValueMap → KnownDiffs)
    (first_keyvalue second_keyvalue : ValueMap) :
    ((∀ k ∈ diffKeys first_keyvalue second_keyvalue,
        k ∈ knownDiffKeys (skd (diffKeys first_keyvalue second_keyvalue)
          first_keyvalue second_keyvalue)) →
      diff_two_resolvers skd first_keyvalue second_keyvalue =
        .KnownDifference ((skd (diffKeys first_keyvalue second_keyvalue)
          first_keyvalue second_keyvalue).get_total_set)) ∧
    ((∃ k ∈ diffKeys first_keyvalue second_keyvalue,
        k ∉ knownDiffKeys (skd (diffKeys first_keyvalue second_keyvalue)
          first_keyvalue second_keyvalue)) →
      ∃ fp, diff_two_resolvers skd first_keyvalue second_keyvalue =
          .NewDifference fp (skd (diffKeys first_keyvalue second_keyvalue)
            first_keyvalue second_keyvalue) ∧
        fp.key_diffs = ((diffKeys first_keyvalue second_keyvalue).filter fun k =>
          k ∉ knownDiffKeys (skd (diffKeys first_keyvalue second_keyvalue)
            first_keyvalue second_keyvalue) ∧
          isCacheStateKey k = false).toFinset) := by
  set dk := diffKeys first_keyvalue second_keyvalue with hdk
  set kd := skd dk first_keyvalue second_keyvalue with hkd
  constructor
  · intro hall
    have hfilter : (dk.filter fun k => k ∉ knownDiffKeys kd) = [] := by
      rw [List.filter_eq_nil_iff]
      intro k hk
      simp [hall k hk]
    rw [diff_two_resolvers]
    rw [← hdk, ← hkd, hfilter]
    rfl
  · rintro ⟨k, hk, hnk⟩
    have hmem : k ∈ dk.filter fun k => k ∉ knownDiffKeys kd :=
      List.mem_filter.mpr ⟨hk, by simpa using hnk⟩
    have hne : (dk.filter fun k => k ∉ knownDiffKeys kd).isEmpty = false := by
      rcases hfe : dk.filter fun k => k ∉ knownDiffKeys kd with _ | _
      · rw [hfe] at hmem
        cases hmem
      · rfl
    refine ⟨DiffFingerprint.new ((dk.filter fun k => k ∉ knownDiffKeys kd).toFinset)
      first_keyvalue second_keyvalue, ?_, ?_⟩
    · rw [diff_two_resolvers, ← hdk, ← hkd, hne]
      rfl
    · exact fingerprint_filter_toFinset dk kd first_keyvalue second_keyvalue

theorem c1_witness_diffKeys : diffKeys c1Left c1Right = [".r"] := by
  have hcmp : compare ".r" ".r" = Ordering.eq := compare_eq_iff_eq.mpr rfl
  have hs1 : c1Left.as_sorted = [(".r", Value.VInteger 1)] := by
    simp [ValueMap.as_sorted, c1Left, List.mergeSort]
  have hs2 : c1Right.as_sorted = [(".r", Value.VInteger 2)] := by
    simp [ValueMap.as_sorted, c1Right, List.mergeSort]
  rw [diffKeys, hs1, hs2]
  simp [zipSorted, hcmp]

theorem claim_C1_matcher_known_vs_new_witness :
    (∀ k ∈ diffKeys c1Left c1Right,
      k ∈ knownDiffKeys (c1skd (diffKeys c1Left c1Right) c1Left c1Right)) ∧
    diff_two_resolvers c1skd c1Left c1Right =
      .KnownDifference
        ((c1skd (diffKeys c1Left c1Right) c1Left c1Right).get_total_set) := by
  have hyp : ∀ k ∈ diffKeys c1Left c1Right,
      k ∈ knownDiffKeys (c1skd (diffKeys c1Left c1Right) c1Left c1Right) := by
    rw [c1_witness_diffKeys]
    intro k hk
    simp only [List.mem_singleton] at hk
    subst hk
    simp [knownDiffKeys, c1skd]
  exact ⟨hyp, (claim_C1_matcher_known_vs_new c1skd c1Left c1Right).1 hyp⟩

end DnsFuzz
